import Mathlib

/-!
# Business Rules Engine — shallow embedding and verification

This file embeds the core of `rules_engine.py` (SafeEvaluator, RuleExecutor,
RulesEngine) in Lean 4 and proves/refutes the frozen claims about it.

Modelling conventions:
* Python's dynamically typed YAML/JSON values become the inductive `Value`
  (string, int, float, bool, None, list, dict).  Python floats are modelled
  as exact rationals (the spec itself demands "no precision-loss penalty");
  `round(x, 4)` is modelled as exact round-half-to-even at 4 decimal places.
* Python dicts become insertion-ordered association lists with unique keys:
  updating an existing key keeps its position, adding a new key appends.
* Exceptions that escape a function are modelled with `Except String`;
  exceptions the source catches locally (`TypeError` in `_parse_comparison`,
  `ValueError` in `_resolve_value`) are folded into the corresponding total
  function, exactly as the `try/except` blocks do.
* File I/O and timing are outside the model: the YAML text of a ruleset is
  modelled by its parsed structure (`RawDoc`), which is all the engine ever
  inspects (the spec states the on-disk syntax is not prescribed), and the
  backing medium plus cache by explicit association lists (`EngineState`).
-/

/-- A Python/YAML runtime value as produced by `yaml.safe_load` /
`request.get_json`: strings, ints, floats, booleans, `None`, lists and
string-keyed dicts.  Floats are modelled as exact rationals. -/
inductive Value where
  | str (s : String)
  | int (n : Int)
  | float (q : ℚ)
  | bool (b : Bool)
  | none
  | list (xs : List Value)
  | dict (m : List (String × Value))

/-- Structural boolean equality on `Value` (basis for `DecidableEq`). -/
def vbeq (a b : Value) : Bool :=
  match a, b with
  | .str s, .str t => s == t
  | .int n, .int m => n == m
  | .float p, .float q => p == q
  | .bool x, .bool y => x == y
  | .none, .none => true
  | .list [], .list [] => true
  | .list (x :: xs), .list (y :: ys) => vbeq x y && vbeq (.list xs) (.list ys)
  | .dict [], .dict [] => true
  | .dict ((k, v) :: xs), .dict ((k', v') :: ys) =>
      k == k' && vbeq v v' && vbeq (.dict xs) (.dict ys)
  | _, _ => false

theorem vbeq_eq_true_iff : ∀ (a b : Value), vbeq a b = true ↔ a = b := by
  intro a b
  induction a, b using vbeq.induct with
  | case10 a b h1 h2 h3 h4 h5 h6 h7 h8 h9 =>
    cases a <;> cases b
    case str.str s t => exact (h1 s t rfl rfl).elim
    case int.int n m => exact (h2 n m rfl rfl).elim
    case float.float p q => exact (h3 p q rfl rfl).elim
    case bool.bool x y => exact (h4 x y rfl rfl).elim
    case none.none => exact (h5 rfl rfl).elim
    case list.list xs ys =>
      cases xs <;> cases ys
      case nil.nil => exact (h6 rfl rfl).elim
      case cons.cons x xs' y ys' => exact (h7 x xs' y ys' rfl rfl).elim
      all_goals simp [vbeq]
    case dict.dict xs ys =>
      cases xs <;> cases ys
      case nil.nil => exact (h8 rfl rfl).elim
      case cons.cons p ps q qs =>
        obtain ⟨k, v⟩ := p
        obtain ⟨k', v'⟩ := q
        exact (h9 k v ps k' v' qs rfl rfl).elim
      all_goals simp [vbeq]
    all_goals simp [vbeq]
  | _ => simp_all [vbeq]

instance : DecidableEq Value := fun a b =>
  decidable_of_iff _ (vbeq_eq_true_iff a b)

/-- The mutable evaluation context: a Python dict from string keys to values,
modelled as an insertion-ordered association list. -/
abbrev Ctx := List (String × Value)

/-- `m.get(k)` on a Python dict (first binding of the key). -/
def assocGet {α : Type} (m : List (String × α)) (k : String) : Option α :=
  (m.find? (fun kv => kv.1 == k)).map (fun kv => kv.2)

/-- `m[k] = v` on a Python dict: replace in place if the key exists
(keeping its position), otherwise append at the end. -/
def assocSet {α : Type} (m : List (String × α)) (k : String) (v : α) :
    List (String × α) :=
  match m with
  | [] => [(k, v)]
  | kv :: rest =>
    if kv.1 == k then (k, v) :: rest else kv :: assocSet rest k v

/-- `del m[k]` on a Python dict (removes the binding of `k`). -/
def assocErase {α : Type} (m : List (String × α)) (k : String) :
    List (String × α) :=
  m.filter (fun kv => kv.1 != k)

/-- `m.setdefault(k, v)`: insert `v` under `k` only if `k` is absent. -/
def assocSetdefault {α : Type} (m : List (String × α)) (k : String) (v : α) :
    List (String × α) :=
  if (assocGet m k).isSome then m else m ++ [(k, v)]

/-- Numeric view of a value: Python treats `bool` as a number
(`True == 1`), so `int`, `float` and `bool` all have one. -/
def pyNum? : Value → Option ℚ
  | .int n => some (n : ℚ)
  | .float q => some q
  | .bool b => some (if b then 1 else 0)
  | _ => Option.none

/-- Python `==` on values: numbers compare by value across `int`/`float`/
`bool`; strings, `None`, lists and dicts compare structurally; values of
different (non-numeric) kinds are unequal, never an error.
(Dict comparison is modelled on the association-list order; every dict in
scope here originates from one insertion order.) -/
def pyEq (a b : Value) : Bool :=
  match pyNum? a, pyNum? b with
  | some x, some y => x == y
  | _, _ =>
    match a, b with
    | .str s, .str t => s == t
    | .none, .none => true
    | .list [], .list [] => true
    | .list (x :: xs), .list (y :: ys) =>
        pyEq x y && pyEq (.list xs) (.list ys)
    | .dict [], .dict [] => true
    | .dict ((k, v) :: xs), .dict ((k', v') :: ys) =>
        k == k' && pyEq v v' && pyEq (.dict xs) (.dict ys)
    | _, _ => false

/-- Python `<` on values; `Option.none` models a `TypeError` (incompatible
operand types).  Numbers compare numerically, strings lexicographically by
code point, lists lexicographically elementwise; everything else raises. -/
def pyLt (a b : Value) : Option Bool :=
  match pyNum? a, pyNum? b with
  | some x, some y => some (decide (x < y))
  | _, _ =>
    match a, b with
    | .str s, .str t => some (decide (s < t))
    | .list [], .list [] => some false
    | .list [], .list (_ :: _) => some true
    | .list (_ :: _), .list [] => some false
    | .list (x :: xs), .list (y :: ys) =>
        if pyEq x y then pyLt (.list xs) (.list ys) else pyLt x y
    | _, _ => Option.none

/-- The six comparison operators of `SafeEvaluator.OPS`. -/
inductive CmpOp where
  | ge | le | ne | eq | gt | lt
deriving DecidableEq

/-- `self.OPS[op_str](left, right)` wrapped in the source's
`try/except TypeError: return False`: an incomparable pair yields `false`
instead of propagating. -/
def applyCmp : CmpOp → Value → Value → Bool
  | .eq, a, b => pyEq a b
  | .ne, a, b => !pyEq a b
  | .gt, a, b => (pyLt b a).getD false
  | .lt, a, b => (pyLt a b).getD false
  | .ge, a, b => ((pyLt a b).map not).getD false
  | .le, a, b => ((pyLt b a).map not).getD false

/-- Python truthiness `bool(v)`: `False`, `None`, numeric zero, and empty
strings/lists/dicts are falsy. -/
def pyTruthy : Value → Bool
  | .bool b => b
  | .none => false
  | .int n => n != 0
  | .float q => q != 0
  | .str s => s != ""
  | .list xs => !xs.isEmpty
  | .dict m => !m.isEmpty

/-- Characters Python's `str.strip()` removes (ASCII whitespace; wider
Unicode whitespace does not occur in rule documents). -/
def isPySpace (c : Char) : Bool :=
  c == ' ' || c == '\t' || c == '\n' || c == '\r' || c == '\x0b' || c == '\x0c'

/-- `s.strip()` on a character list. -/
def stripChars (cs : List Char) : List Char :=
  ((cs.dropWhile isPySpace).reverse.dropWhile isPySpace).reverse

/-- `s.split(sep)` for a single-character separator (used for the dotted
context paths); `"".split "."` yields `[""]`, like Python. -/
def splitOnChar (cs : List Char) (sep : Char) : List (List Char) :=
  match cs with
  | [] => [[]]
  | c :: rest =>
    match splitOnChar rest sep with
    | [] => [[c]]
    | p :: ps => if c == sep then [] :: p :: ps else (c :: p) :: ps

/-- Nonempty all-digit character runs, as a number. -/
def digitsToNat? (ds : List Char) : Option Nat :=
  if ds.isEmpty then Option.none
  else if ds.all (fun c => c.isDigit) then
    some (ds.foldl (fun acc c => acc * 10 + (c.toNat - 48)) 0)
  else Option.none

/-- Python `int(token)` on an already-stripped token: optional sign plus
decimal digits, `ValueError` (`Option.none`) otherwise.  (Digit-group
underscores and non-ASCII digits are outside the model.) -/
def pyIntParse (cs : List Char) : Option Int :=
  match cs with
  | '+' :: ds => (digitsToNat? ds).map (fun n => (n : Int))
  | '-' :: ds => (digitsToNat? ds).map (fun n => -(n : Int))
  | ds => (digitsToNat? ds).map (fun n => (n : Int))

/-- Mantissa of a float literal: digits with an optional single dot, at
least one digit overall; yields (digits as an integer, fraction length). -/
def floatMantissa? (cs : List Char) : Option (Nat × Nat) :=
  match splitOnChar cs '.' with
  | [ip] => (digitsToNat? ip).map (fun n => (n, 0))
  | [ip, fp] =>
    if (ip ++ fp).isEmpty then Option.none
    else (digitsToNat? (ip ++ fp)).map (fun n => (n, fp.length))
  | _ => Option.none

/-- Python `float(token)` on an already-stripped token: sign, decimal
mantissa, optional exponent.  `inf`/`nan` literals are outside the model
(rationals have no such values); `ValueError` is `Option.none`. -/
def pyFloatParse (cs : List Char) : Option ℚ :=
  let signed : Int × List Char :=
    match cs with
    | '+' :: r => (1, r)
    | '-' :: r => (-1, r)
    | r => (1, r)
  let body := signed.2
  match body.findIdx? (fun c => c == 'e' || c == 'E') with
  | Option.none =>
    (floatMantissa? body).map (fun nk => (signed.1 * nk.1 : ℚ) / 10 ^ nk.2)
  | some i =>
    match floatMantissa? (body.take i), pyIntParse (body.drop (i + 1)) with
    | some nk, some e =>
        some ((signed.1 * nk.1 : ℚ) / 10 ^ nk.2 * (10 : ℚ) ^ (e : ℤ))
    | _, _ => Option.none

/-- Python `float(v)` on a value: numbers and bools convert, strings are
parsed after stripping, everything else is a `TypeError`/`ValueError`
(`Option.none`). -/
def pyFloat : Value → Option ℚ
  | .int n => some (n : ℚ)
  | .float q => some q
  | .bool b => some (if b then 1 else 0)
  | .str s => pyFloatParse (stripChars s.toList)
  | _ => Option.none

/-- Round-half-to-even to an integer (CPython's `round`). -/
def roundHalfEven (x : ℚ) : ℤ :=
  let f := ⌊x⌋
  let r := x - (f : ℚ)
  if r < 1 / 2 then f
  else if 1 / 2 < r then f + 1
  else if f % 2 = 0 then f else f + 1

/-- Python `round(x, 4)` on our exact-rational floats: the idealized
(precision-loss-free) semantics the spec stipulates. -/
def round4 (x : ℚ) : ℚ := (roundHalfEven (x * 10000) : ℚ) / 10000

/-- Decimal rendering of an integer. -/
def intStr (n : Int) : String :=
  if n < 0 then "-" ++ toString n.natAbs else toString n.natAbs

/-- Python `str`/`repr` of a float, for floats whose exact value has a
terminating decimal expansion (every float the engine computes does, thanks
to `round4`): digits with at least one fractional digit, trailing zeros
stripped.  Other rationals get a total fallback rendering; scientific
notation for extreme magnitudes is outside the model. -/
def floatRepr (q : ℚ) : String :=
  let sgn := if q < 0 then "-" else ""
  let n := q.num.natAbs
  let d := q.den
  match (List.range 31).find? (fun k => 10 ^ k % d == 0) with
  | some k =>
    let scaled := n * 10 ^ k / d
    let ip := scaled / 10 ^ k
    let fp := scaled % 10 ^ k
    let fracDigits :=
      String.mk (List.replicate (k - (toString fp).length) '0') ++ toString fp
    let stripped :=
      String.mk ((fracDigits.toList.reverse.dropWhile (fun c => c == '0')).reverse)
    sgn ++ toString ip ++ "." ++ (if stripped = "" then "0" else stripped)
  | Option.none => sgn ++ toString n ++ "/" ++ toString d

/-- Python `repr(v)`: strings quoted (escape processing not modelled),
`True`/`False`/`None` spelled Python-style, lists and dicts rendered
recursively. -/
def pyRepr : Value → String
  | .str s => "'" ++ s ++ "'"
  | .int n => intStr n
  | .float q => floatRepr q
  | .bool b => if b then "True" else "False"
  | .none => "None"
  | .list xs =>
      "[" ++ String.intercalate ", " (xs.attach.map (fun x => pyRepr x.1)) ++ "]"
  | .dict m =>
      "\x7b" ++
        String.intercalate ", "
          (m.attach.map (fun kv => "'" ++ kv.1.1 ++ "': " ++ pyRepr kv.1.2)) ++
      "\x7d"
decreasing_by
  · have := List.sizeOf_lt_of_mem x.2
    simp_all
    omega
  · rcases kv with ⟨⟨k', v'⟩, hmem⟩
    have := List.sizeOf_lt_of_mem hmem
    simp_all
    omega

/-- Python `str(v)`: like `repr` except strings are unquoted. -/
def pyStr : Value → String
  | .str s => s
  | .int n => intStr n
  | .float q => floatRepr q
  | .bool b => if b then "True" else "False"
  | .none => "None"
  | .list xs => pyRepr (.list xs)
  | .dict m => pyRepr (.dict m)

/-- Python `s.replace(pat, rep)`: every non-overlapping occurrence,
left to right, in one pass.  (The `pat = ""` insertion behaviour of
Python is not modelled; the engine only ever substitutes nonempty
`{key}` patterns.) -/
def replaceChars (s pat rep : List Char) : List Char :=
  match s with
  | [] => []
  | c :: rest =>
    if h : pat ≠ [] ∧ pat.isPrefixOf (c :: rest) then
      rep ++ replaceChars ((c :: rest).drop pat.length) pat rep
    else
      c :: replaceChars rest pat rep
termination_by s.length
decreasing_by
  · have hp : 0 < pat.length := List.length_pos.mpr h.1
    simp [List.length_drop]
    omega
  · simp

/-- `str.replace` lifted to `String`. -/
def pyReplace (s pat rep : String) : String :=
  String.mk (replaceChars s.toList pat.toList rep.toList)

/-- `SafeEvaluator._split_on_keyword`, faithfully to the source's loop:
every `(`, `'` or `"` *increments* the depth (the first `if` branch wins),
and only `)` with positive depth decrements — a quote therefore never
closes, so once any quote has been seen no later keyword is split on.
Keyword comparison lowercases the scanned slice.  (The source is never
called with an empty keyword; the `kw ≠ []` conjunct only guards that
impossible case.) -/
def splitGo (kw : List Char) (cs : List Char) (depth : Nat) (cur : List Char)
    (acc : List (List Char)) : List (List Char) :=
  match cs with
  | [] => acc ++ [cur]
  | c :: rest =>
    if c == '(' || c == '\'' || c == '"' then
      splitGo kw rest (depth + 1) (cur ++ [c]) acc
    else if (c == ')' || c == '\'' || c == '"') && depth > 0 then
      splitGo kw rest (depth - 1) (cur ++ [c]) acc
    else if h : depth = 0 ∧ kw ≠ [] ∧
        ((c :: rest).take kw.length).map Char.toLower = kw then
      splitGo kw ((c :: rest).drop kw.length) depth [] (acc ++ [cur])
    else
      splitGo kw rest depth (cur ++ [c]) acc
termination_by cs.length
decreasing_by
  · simp
  · simp
  · have hk : 0 < kw.length := List.length_pos.mpr h.2.1
    simp [List.length_drop]
    omega
  · simp

/-- `self._split_on_keyword(expr, keyword)`. -/
def splitOnKeyword (cs kw : List Char) : List (List Char) :=
  splitGo kw cs 0 [] []

theorem splitGo_parts_le (kw cs : List Char) (depth : Nat) (cur : List Char)
    (acc : List (List Char)) :
    ∀ p ∈ splitGo kw cs depth cur acc,
      p ∈ acc ∨ p.length ≤ cur.length + cs.length := by
  induction cs, depth, cur, acc using splitGo.induct kw with
  | case1 depth cur acc =>
    intro p hp
    rw [splitGo] at hp
    rcases List.mem_append.mp hp with h | h
    · exact Or.inl h
    · simp_all
  | case2 depth cur acc c rest hc ih =>
    intro p hp
    rw [splitGo, if_pos hc] at hp
    rcases ih p hp with h | h
    · exact Or.inl h
    · right; simp [List.length_append] at h ⊢; omega
  | case3 depth cur acc c rest hc1 hc2 ih =>
    intro p hp
    rw [splitGo, if_neg (by simp_all), if_pos hc2] at hp
    rcases ih p hp with h | h
    · exact Or.inl h
    · right; simp [List.length_append] at h ⊢; omega
  | case4 depth cur acc c rest hc1 hc2 hc3 ih =>
    intro p hp
    rw [splitGo, if_neg (by simp_all), if_neg (by simp_all), dif_pos hc3] at hp
    rcases ih p hp with h | h
    · rcases List.mem_append.mp h with h' | h'
      · exact Or.inl h'
      · right; simp_all
    · right
      simp only [List.length_nil, Nat.zero_add] at h
      have := List.length_drop kw.length (c :: rest)
      omega
  | case5 depth cur acc c rest hc1 hc2 hc3 ih =>
    intro p hp
    rw [splitGo, if_neg (by simp_all), if_neg (by simp_all), dif_neg hc3] at hp
    rcases ih p hp with h | h
    · exact Or.inl h
    · right; simp [List.length_append] at h ⊢; omega

theorem splitOnKeyword_parts_le (cs kw : List Char) :
    ∀ p ∈ splitOnKeyword cs kw, p.length ≤ cs.length := by
  intro p hp
  rcases splitGo_parts_le kw cs 0 [] [] p hp with h | h
  · simp at h
  · simpa using h

theorem stripChars_length_le (cs : List Char) :
    (stripChars cs).length ≤ cs.length := by
  unfold stripChars
  simp only [List.length_reverse]
  calc ((cs.dropWhile isPySpace).reverse.dropWhile isPySpace).length
      ≤ (cs.dropWhile isPySpace).reverse.length :=
        (List.dropWhile_sublist _).length_le
    _ = (cs.dropWhile isPySpace).length := List.length_reverse _
    _ ≤ cs.length := (List.dropWhile_sublist _).length_le

/-- `expr.find(op_str)`: index of the first occurrence of `pat`, if any. -/
def findSub (cs pat : List Char) : Option Nat :=
  if pat.isPrefixOf cs then some 0
  else
    match cs with
    | [] => Option.none
    | _ :: rest => (findSub rest pat).map (fun i => i + 1)

/-- Dotted-path context lookup of `_resolve_value`: walk nested dicts key
by key; a missing key or a non-dict intermediate yields `None`, never an
error. -/
def walkPath : Value → List String → Value
  | v, [] => v
  | .dict m, p :: ps => walkPath ((assocGet m p).getD .none) ps
  | _, _ :: _ => .none

/-- `SafeEvaluator._resolve_value(token)`: literals first (`true`, `false`,
`null`, quoted strings, ints, floats), otherwise a dotted context path. -/
def resolveChars (ctx : Ctx) (token : List Char) : Value :=
  let t := stripChars token
  if t = "true".toList then .bool true
  else if t = "false".toList then .bool false
  else if t = "null".toList then .none
  else if (t.head? == some '\'' && t.getLast? == some '\'') ||
      (t.head? == some '"' && t.getLast? == some '"') then
    .str (String.mk ((t.drop 1).dropLast))
  else
    match pyIntParse t with
    | some n => .int n
    | Option.none =>
      match pyFloatParse t with
      | some q => .float q
      | Option.none => walkPath (.dict ctx) ((splitOnChar t '.').map String.mk)

/-- The operator table of `_parse_comparison`, in the source's trial
order: two-character operators before their one-character prefixes. -/
def opsList : List (List Char × CmpOp) :=
  [(">=".toList, .ge), ("<=".toList, .le), ("!=".toList, .ne),
   ("==".toList, .eq), (">".toList, .gt), ("<".toList, .lt)]

/-- The operator-search loop of `_parse_comparison`: the first operator in
`opsList` that occurs anywhere in the expression splits it at that
operator's first occurrence; both operand strings are stripped and
resolved, and the comparison runs under the `TypeError → False` guard. -/
def tryCmpOps (ctx : Ctx) (e : List Char) :
    List (List Char × CmpOp) → Option Bool
  | [] => Option.none
  | (pat, op) :: rest =>
    match findSub e pat with
    | Option.none => tryCmpOps ctx e rest
    | some i =>
      some (applyCmp op (resolveChars ctx (stripChars (e.take i)))
        (resolveChars ctx (stripChars (e.drop (i + pat.length)))))

mutual

/-- `SafeEvaluator.evaluate`: strip, then parse at `or` level. -/
def evalChars (ctx : Ctx) (e : List Char) : Bool :=
  parseOr ctx (stripChars e)
termination_by e.length * 5 + 4
decreasing_by
  have := stripChars_length_le e
  omega

/-- `SafeEvaluator._parse_or`. -/
def parseOr (ctx : Ctx) (e : List Char) : Bool :=
  let parts := splitOnKeyword e " or ".toList
  if parts.length > 1 then
    parts.attach.any (fun p => parseAnd ctx (stripChars p.1))
  else parseAnd ctx e
termination_by e.length * 5 + 3
decreasing_by
  · have h1 := splitOnKeyword_parts_le e (" or ".toList) p.1 p.2
    have h2 := stripChars_length_le p.1
    omega
  · omega

/-- `SafeEvaluator._parse_and`. -/
def parseAnd (ctx : Ctx) (e : List Char) : Bool :=
  let parts := splitOnKeyword e " and ".toList
  if parts.length > 1 then
    parts.attach.all (fun p => parseNot ctx (stripChars p.1))
  else parseNot ctx e
termination_by e.length * 5 + 2
decreasing_by
  · have h1 := splitOnKeyword_parts_le e (" and ".toList) p.1 p.2
    have h2 := stripChars_length_le p.1
    omega
  · omega

/-- `SafeEvaluator._parse_not`: a single leading (case-sensitive) `not `. -/
def parseNot (ctx : Ctx) (e : List Char) : Bool :=
  if "not ".toList.isPrefixOf e then !parseComparison ctx (stripChars (e.drop 4))
  else parseComparison ctx e
termination_by e.length * 5 + 1
decreasing_by
  · have h1 := stripChars_length_le (e.drop 4)
    have h2 := List.length_drop 4 e
    omega
  · omega

/-- `SafeEvaluator._parse_comparison`: unwrap an outer parenthesis pair,
else try the six operators, else bare-operand truthiness. -/
def parseComparison (ctx : Ctx) (e : List Char) : Bool :=
  if h : (e.head? == some '(' && e.getLast? == some ')') = true then
    evalChars ctx ((e.drop 1).dropLast)
  else
    match tryCmpOps ctx e opsList with
    | some b => b
    | Option.none => pyTruthy (resolveChars ctx e)
termination_by e.length * 5
decreasing_by
  cases e with
  | nil => simp at h
  | cons c r =>
    simp [List.length_dropLast]
    omega

end

/-- `SafeEvaluator(context).evaluate(expression)`. -/
def SafeEvaluator.evaluate (ctx : Ctx) (expression : String) : Bool :=
  evalChars ctx expression.toList

/-- An action descriptor, one of the seven tagged shapes
`RuleExecutor._execute_action` recognizes (keys `set`, `multiply`, `add`,
`subtract`, `divide`, `append`, `log`, tried in that order; a descriptor
carrying none of them does nothing).  The operator-specific payload keeps
the source's `action.get(...)` optionality: `Option.none` means the key
was absent from the action mapping. -/
inductive RuleAction where
  | set (field : String) (value : Option Value)
  | multiply (field : String) (factor : Option Value)
  | add (field : String) (amount : Option Value)
  | subtract (field : String) (amount : Option Value)
  | divide (field : String) (divisor : Option Value)
  | append (field : String) (value : Option Value)
  | log (message : Value)
  | unrecognized
deriving DecidableEq

/-- `RuleExecutor._execute_action(action, ctx, rule_id)`: one action
against the mutable context.  Returns the optional log line and the
updated context; `.error` models the uncaught `ValueError`/`TypeError`
a failing `float(...)` coercion raises. -/
def execAction (ruleId : String) (a : RuleAction) (ctx : Ctx) :
    Except String (Option String × Ctx) :=
  match a with
  | .set f v? =>
    let v := v?.getD .none
    .ok (some ("[" ++ ruleId ++ "] SET " ++ f ++ " = " ++ pyRepr v),
      assocSet ctx f v)
  | .multiply f factor? =>
    let factor := factor?.getD (.int 1)
    match pyFloat ((assocGet ctx f).getD (.int 0)), pyFloat factor with
    | some x, some y =>
      let r := round4 (x * y)
      .ok (some ("[" ++ ruleId ++ "] MULTIPLY " ++ f ++ " × " ++ pyStr factor
          ++ " → " ++ pyStr (.float r)),
        assocSet ctx f (.float r))
    | _, _ => .error "could not convert operand to float in MULTIPLY"
  | .add f amount? =>
    let amount := amount?.getD (.int 0)
    match pyFloat ((assocGet ctx f).getD (.int 0)), pyFloat amount with
    | some x, some y =>
      let r := round4 (x + y)
      .ok (some ("[" ++ ruleId ++ "] ADD " ++ f ++ " + " ++ pyStr amount
          ++ " → " ++ pyStr (.float r)),
        assocSet ctx f (.float r))
    | _, _ => .error "could not convert operand to float in ADD"
  | .subtract f amount? =>
    let amount := amount?.getD (.int 0)
    match pyFloat ((assocGet ctx f).getD (.int 0)), pyFloat amount with
    | some x, some y =>
      let r := round4 (x - y)
      .ok (some ("[" ++ ruleId ++ "] SUBTRACT " ++ f ++ " - " ++ pyStr amount
          ++ " → " ++ pyStr (.float r)),
        assocSet ctx f (.float r))
    | _, _ => .error "could not convert operand to float in SUBTRACT"
  | .divide f divisor? =>
    let divisor := divisor?.getD (.int 1)
    match pyFloat divisor with
    | Option.none => .error "could not convert divisor to float in DIVIDE"
    | some d =>
      if d ≠ 0 then
        match pyFloat ((assocGet ctx f).getD (.int 0)) with
        | Option.none => .error "could not convert operand to float in DIVIDE"
        | some x =>
          let ctx' := assocSet ctx f (.float (round4 (x / d)))
          .ok (some ("[" ++ ruleId ++ "] DIVIDE " ++ f ++ " / " ++ pyStr divisor
              ++ " → " ++ pyStr ((assocGet ctx' f).getD .none)), ctx')
      else
        .ok (some ("[" ++ ruleId ++ "] DIVIDE " ++ f ++ " / " ++ pyStr divisor
            ++ " → " ++ pyStr ((assocGet ctx f).getD .none)), ctx)
  | .append f v? =>
    let v := v?.getD .none
    let old : List Value :=
      match assocGet ctx f with
      | some (.list xs) => xs
      | _ => []
    .ok (some ("[" ++ ruleId ++ "] APPEND " ++ pyRepr v ++ " → " ++ f),
      assocSet ctx f (.list (old ++ [v])))
  | .log msg =>
    let rendered := ctx.foldl
      (fun m kv => pyReplace m ("\x7b" ++ kv.1 ++ "\x7d") (pyStr kv.2))
      (pyStr msg)
    .ok (some ("[" ++ ruleId ++ "] LOG: " ++ rendered), ctx)
  | .unrecognized => .ok (Option.none, ctx)

/-- `RuleExecutor.execute(actions, context, rule_id)`: strictly in
sequence, each action observing the previous action's mutations; a `Some`
log line (always nonempty) is collected per executed action. -/
def execActions (ruleId : String) (acts : List RuleAction) (ctx : Ctx) :
    Except String (List String × Ctx) :=
  match acts with
  | [] => .ok ([], ctx)
  | a :: rest =>
    match execAction ruleId a ctx with
    | .error e => .error e
    | .ok (line?, ctx') =>
      match execActions ruleId rest ctx' with
      | .error e => .error e
      | .ok (lines, ctx'') =>
        .ok ((match line? with
              | some l => l :: lines
              | Option.none => lines), ctx'')

/-- A rule mapping as loaded from YAML; `Option.none` fields model keys
absent from the mapping, with the `rule.get(...)` defaults applied by the
accessors below.  (Priorities are modelled as integers; rule field names
as strings, per the documented schema.) -/
structure Rule where
  id? : Option String := Option.none
  name? : Option String := Option.none
  priority? : Option Int := Option.none
  description? : Option String := Option.none
  condition? : Option String := Option.none
  actions? : Option (List RuleAction) := Option.none
deriving DecidableEq

/-- `rule.get("id", "???")`. -/
def Rule.ruleId (r : Rule) : String := r.id?.getD "???"

/-- `rule.get("name", rule_id)`. -/
def Rule.rname (r : Rule) : String := r.name?.getD r.ruleId

/-- `rule.get("priority", 50)`. -/
def Rule.priority (r : Rule) : Int := r.priority?.getD 50

/-- `rule.get("description", "")`. -/
def Rule.descr (r : Rule) : String := r.description?.getD ""

/-- `rule.get("condition", "")`. -/
def Rule.condition (r : Rule) : String := r.condition?.getD ""

/-- `rule.get("actions", [])`. -/
def Rule.actions (r : Rule) : List RuleAction := r.actions?.getD []

/-- One entry of the execution log.  The source builds three entry shapes
(matched, non-matched, condition-error); absent keys are `Option.none`.
In this embedding the evaluator is total (every exception the source can
raise inside `SafeEvaluator` is caught internally: `TypeError` becomes
`False`, `ValueError` falls through to the next literal form), so the
condition-error shape, which would carry `error? = some _`, is
unreachable and every produced entry has `error? = Option.none`. -/
structure LogEntry where
  rule_id : String
  name : String
  priority? : Option Int := Option.none
  description? : Option String := Option.none
  condition? : Option String := Option.none
  matched : Bool
  actions_executed? : Option Nat := Option.none
  error? : Option String := Option.none
  logs : List String
deriving DecidableEq

/-- The execution-log entry for a matched rule. -/
def matchEntry (r : Rule) (lines : List String) : LogEntry :=
  { rule_id := r.ruleId, name := r.rname, priority? := some r.priority,
    description? := some r.descr, condition? := some r.condition,
    matched := true, actions_executed? := some r.actions.length,
    logs := lines }

/-- The execution-log entry for a non-matching rule (no description key,
no error key). -/
def skipEntry (r : Rule) : LogEntry :=
  { rule_id := r.ruleId, name := r.rname, priority? := some r.priority,
    condition? := some r.condition, matched := false, logs := [] }

/-- Output of one pass of the rule loop: fired ids, skipped ids,
execution log, final context. -/
structure LoopOut where
  fired : List String
  skipped : List String
  trace : List LogEntry
  ctx : Ctx
deriving DecidableEq

/-- The per-rule loop of `RulesEngine.evaluate`: evaluate the condition
against the *current* context, execute actions on match, record exactly
one log entry per visited rule, stop after the first match when the mode
is `"first_match"`.  An action error propagates (the source's `try` only
wraps condition evaluation). -/
def runRules (mode : String) (rules : List Rule) (ctx : Ctx) :
    Except String LoopOut :=
  match rules with
  | [] => .ok ⟨[], [], [], ctx⟩
  | r :: rest =>
    if SafeEvaluator.evaluate ctx r.condition then
      match execActions r.ruleId r.actions ctx with
      | .error e => .error e
      | .ok (lines, ctx') =>
        if mode == "first_match" then
          .ok ⟨[r.ruleId], [], [matchEntry r lines], ctx'⟩
        else
          match runRules mode rest ctx' with
          | .error e => .error e
          | .ok out =>
            .ok ⟨r.ruleId :: out.fired, out.skipped,
              matchEntry r lines :: out.trace, out.ctx⟩
    else
      match runRules mode rest ctx with
      | .error e => .error e
      | .ok out =>
        .ok ⟨out.fired, r.ruleId :: out.skipped,
          skipEntry r :: out.trace, out.ctx⟩

/-- The ruleset metadata block (the `"ruleset"` key's mapping); only
`priority_mode` is consulted by the engine core, the remaining fields are
passed through to summaries/metadata. -/
structure RulesetMeta where
  priority_mode? : Option String := Option.none
deriving DecidableEq

/-- `ruleset_meta.get("priority_mode", "all")`. -/
def RulesetMeta.priorityMode (m : RulesetMeta) : String :=
  m.priority_mode?.getD "all"

/-- A rule document as parsed by `yaml.safe_load`, before validation:
either top-level key may be absent.  (The concrete YAML syntax is outside
the model; the spec prescribes only the parsed structure.) -/
structure RawDoc where
  ruleset? : Option RulesetMeta := Option.none
  rules? : Option (List Rule) := Option.none
deriving DecidableEq

/-- The priority sort of `load_ruleset`:
`data["rules"].sort(key=lambda r: r.get("priority", 50))` — an ascending
stable sort (CPython's sort is stable; `List.mergeSort` is the same
stable sort extensionally). -/
def sortRules (rs : List Rule) : List Rule :=
  rs.mergeSort (fun a b => decide (a.priority ≤ b.priority))

/-- A validated, loaded rule document: metadata plus the rule sequence,
already sorted by ascending priority. -/
structure LoadedDoc where
  meta : RulesetMeta
  rules : List Rule
deriving DecidableEq

/-- The parse/validate/sort part of `RulesEngine.load_ruleset`: missing
`"ruleset"` or `"rules"` keys raise `ValueError`; on success the rule
list is sorted by priority.  (File lookup, mtime caching and timestamps
are I/O and stay outside the model.) -/
def loadDoc (d : RawDoc) : Except String LoadedDoc :=
  match d.ruleset? with
  | Option.none => .error "YAML missing 'ruleset' key"
  | some meta =>
    match d.rules? with
    | Option.none => .error "YAML missing 'rules' key"
    | some rs => .ok ⟨meta, sortRules rs⟩

/-- The result dictionary of `RulesEngine.evaluate` (timing metadata
omitted: wall-clock time is outside the model). -/
structure EvalResult where
  context : Ctx
  rules_fired : List String
  rules_skipped : List String
  rules_fired_count : Nat
  rules_total : Nat
  execution_log : List LogEntry
  priority_mode : String
deriving DecidableEq

/-- The evaluation pass of `RulesEngine.evaluate` on an already-loaded
document: deep-copied working context (value-level: the caller's record
is a separate value; see `evaluateHeap` for the aliasing model), `tags`
defaulted to `[]`, then the rule loop. -/
def engineEvaluate (doc : LoadedDoc) (input : Ctx) : Except String EvalResult :=
  let mode := doc.meta.priorityMode
  let ctx0 := assocSetdefault input "tags" (.list [])
  match runRules mode doc.rules ctx0 with
  | .error e => .error e
  | .ok out =>
    .ok { context := out.ctx, rules_fired := out.fired,
          rules_skipped := out.skipped,
          rules_fired_count := out.fired.length,
          rules_total := doc.rules.length,
          execution_log := out.trace,
          priority_mode := mode }

/-- `RulesEngine.evaluate` from a raw document: load (validate + sort),
then run the pass. -/
def evaluateDoc (d : RawDoc) (input : Ctx) : Except String EvalResult :=
  match loadDoc d with
  | .error e => .error e
  | .ok doc => engineEvaluate doc input

/-! ## Aliasing model for the deep-copy guarantee

Python passes dicts by reference; `evaluate` deep-copies its input before
mutating.  To make that observable we model a heap of context records:
addresses are list indices, `copy.deepcopy` allocates a fresh cell
holding the copied value, and every action mutation writes to the working
cell's address only. -/

/-- A heap of context records; an address is an index. -/
abbrev Heap := List Ctx

/-- `RuleExecutor.execute` acting through a heap address: each action
reads the cell, computes, and writes the cell back — the stepwise
mutation of the source.  On error the heap reached so far is returned
(the exception propagates past it). -/
def runActionsHeap (ruleId : String) (acts : List RuleAction) (addr : Nat)
    (h : Heap) : Except String (List String) × Heap :=
  match acts with
  | [] => (.ok [], h)
  | a :: rest =>
    match execAction ruleId a (h.getD addr []) with
    | .error e => (.error e, h)
    | .ok (line?, ctx') =>
      let p := runActionsHeap ruleId rest addr (h.set addr ctx')
      (match p.1 with
       | .error e => .error e
       | .ok lines =>
         .ok (match line? with
              | some l => l :: lines
              | Option.none => lines), p.2)

/-- The rule loop of `RulesEngine.evaluate` acting through a heap
address: conditions read the current cell, actions mutate it in place. -/
def runRulesHeap (mode : String) (rules : List Rule) (addr : Nat) (h : Heap) :
    Except String (List String × List String × List LogEntry) × Heap :=
  match rules with
  | [] => (.ok ([], [], []), h)
  | r :: rest =>
    if SafeEvaluator.evaluate (h.getD addr []) r.condition then
      let p := runActionsHeap r.ruleId r.actions addr h
      match p.1 with
      | .error e => (.error e, p.2)
      | .ok lines =>
        if mode == "first_match" then
          (.ok ([r.ruleId], [], [matchEntry r lines]), p.2)
        else
          let q := runRulesHeap mode rest addr p.2
          (match q.1 with
           | .error e => .error e
           | .ok (f, s, t) => .ok (r.ruleId :: f, s, matchEntry r lines :: t),
           q.2)
    else
      let q := runRulesHeap mode rest addr h
      (match q.1 with
       | .error e => .error e
       | .ok (f, s, t) => .ok (f, r.ruleId :: s, skipEntry r :: t), q.2)

/-- `RulesEngine.evaluate` with the caller's record living at a heap
address: `context = copy.deepcopy(input_data)` allocates a *fresh* cell
for the working context; the loop then mutates only that cell. -/
def evaluateHeap (doc : LoadedDoc) (inputAddr : Nat) (h : Heap) :
    Except String EvalResult × Heap :=
  let ctx0 := assocSetdefault (h.getD inputAddr []) "tags" (.list [])
  let fresh := h.length
  let p := runRulesHeap doc.meta.priorityMode doc.rules fresh (h ++ [ctx0])
  (match p.1 with
   | .error e => .error e
   | .ok (f, s, t) =>
     .ok { context := p.2.getD fresh [], rules_fired := f, rules_skipped := s,
           rules_fired_count := f.length, rules_total := doc.rules.length,
           execution_log := t, priority_mode := doc.meta.priorityMode }, p.2)

/-! ## Ruleset store state for `save_ruleset_yaml` -/

/-- The state `RulesEngine.save_ruleset_yaml` touches: the backing medium
(one parsed document text per ruleset id) and the parsed-document cache
(`self._cache`). -/
structure EngineState where
  files : List (String × RawDoc)
  cache : List (String × LoadedDoc)
deriving DecidableEq

/-- `RulesEngine.save_ruleset_yaml(name, content)`: validate the two
required top-level keys *before* committing; on failure raise `ValueError`
leaving both the backing medium and the cache untouched; on success
overwrite the file and evict the cache entry, returning the rule count.
The state after the call is always returned alongside the outcome. -/
def saveRulesetYaml (st : EngineState) (name : String) (content : RawDoc) :
    Except String Nat × EngineState :=
  match content.ruleset? with
  | Option.none => (.error "YAML must contain a 'ruleset' key", st)
  | some _ =>
    match content.rules? with
    | Option.none => (.error "YAML must contain a 'rules' key", st)
    | some rs =>
      (.ok rs.length,
       { files := assocSet st.files name content,
         cache := assocErase st.cache name })

/-! ## Helper lemmas -/

instance {ε α : Type} [DecidableEq ε] [DecidableEq α] : DecidableEq (Except ε α) :=
  fun a b =>
    match a, b with
    | .ok x, .ok y =>
      if h : x = y then .isTrue (by rw [h]) else .isFalse (by simp [h])
    | .error e, .error f =>
      if h : e = f then .isTrue (by rw [h]) else .isFalse (by simp [h])
    | .ok _, .error _ => .isFalse (by simp)
    | .error _, .ok _ => .isFalse (by simp)

/-- Structural invariants of one pass of the rule loop: one log entry per
visited rule split between fired and skipped; at most one rule fires under
`first_match`; outside `first_match` every rule is visited, in list
order. -/
theorem runRules_spec (mode : String) :
    ∀ (rules : List Rule) (ctx : Ctx) (out : LoopOut),
      runRules mode rules ctx = .ok out →
      out.trace.length = out.fired.length + out.skipped.length ∧
      out.fired.length + out.skipped.length ≤ rules.length ∧
      (mode ≠ "first_match" →
        out.trace.map (fun t => t.rule_id) = rules.map Rule.ruleId) ∧
      (mode = "first_match" → out.fired.length ≤ 1) := by
  intro rules
  induction rules with
  | nil =>
    intro ctx out h
    rw [runRules] at h
    injection h with h
    subst h
    simp
  | cons r rest ih =>
    intro ctx out h
    rw [runRules] at h
    split at h
    · split at h
      · exact absurd h (by simp)
      · rename_i lines ctx' heq
        split at h
        · rename_i hfm
          injection h with h
          subst h
          refine ⟨by simp, by simp, ?_, by simp⟩
          intro hne
          exact absurd (by simpa using hfm) hne
        · rename_i hfm
          split at h
          · exact absurd h (by simp)
          · rename_i out' hrec
            injection h with h
            subst h
            obtain ⟨ih1, ih2, ih3, ih4⟩ := ih ctx' out' hrec
            refine ⟨by simp [ih1]; omega, by simp; omega, ?_, ?_⟩
            · intro hne
              simp [matchEntry, Rule.ruleId] at ih3 ⊢
              exact ih3 hne
            · intro hfm'
              exact absurd (by simpa using hfm') hfm
    · split at h
      · exact absurd h (by simp)
      · rename_i out' hrec
        injection h with h
        subst h
        obtain ⟨ih1, ih2, ih3, ih4⟩ := ih ctx out' hrec
        refine ⟨by simp [ih1]; omega, by simp; omega, ?_, ?_⟩
        · intro hne
          simp [skipEntry, Rule.ruleId] at ih3 ⊢
          exact ih3 hne
        · intro hfm'
          have := ih4 hfm'
          simpa using this

/-- Under `first_match`, once a rule matches, the loop result does not
depend on the rules after it. -/
theorem runRules_first_match_stops :
    ∀ (pre : List Rule) (r : Rule) (post : List Rule) (ctx : Ctx),
      (∀ p ∈ pre, SafeEvaluator.evaluate ctx p.condition = false) →
      SafeEvaluator.evaluate ctx r.condition = true →
      runRules "first_match" (pre ++ r :: post) ctx =
        runRules "first_match" (pre ++ [r]) ctx := by
  intro pre
  induction pre with
  | nil =>
    intro r post ctx _ hr
    simp only [List.nil_append]
    rw [runRules, runRules]
    rw [if_pos hr, if_pos hr]
    cases execActions r.ruleId r.actions ctx with
    | error e => rfl
    | ok p => rfl
  | cons p pre' ih =>
    intro r post ctx hpre hr
    have hp : SafeEvaluator.evaluate ctx p.condition = false :=
      hpre p (List.mem_cons_self p pre')
    simp only [List.cons_append]
    rw [runRules, runRules]
    rw [if_neg (by simp [hp]), if_neg (by simp [hp])]
    rw [ih r post ctx (fun q hq => hpre q (List.mem_cons_of_mem p hq)) hr]

/-- The action runner writes only at the working address: every other
heap cell is untouched. -/
theorem runActionsHeap_frame (ruleId : String) (acts : List RuleAction)
    (addr : Nat) :
    ∀ (h : Heap) (i : Nat), i ≠ addr →
      ((runActionsHeap ruleId acts addr h).2)[i]? = h[i]? := by
  induction acts with
  | nil =>
    intro h i hi
    simp [runActionsHeap]
  | cons a rest ih =>
    intro h i hi
    rw [runActionsHeap]
    split
    · simp
    · rename_i line? ctx' heq
      have hstep := ih (h.set addr ctx') i hi
      rw [List.getElem?_set_ne (Ne.symm hi)] at hstep
      simpa using hstep

/-- The rule loop writes only at the working address. -/
theorem runRulesHeap_frame (mode : String) (rules : List Rule) (addr : Nat) :
    ∀ (h : Heap) (i : Nat), i ≠ addr →
      ((runRulesHeap mode rules addr h).2)[i]? = h[i]? := by
  induction rules with
  | nil =>
    intro h i hi
    simp [runRulesHeap]
  | cons r rest ih =>
    intro h i hi
    have ha := runActionsHeap_frame r.ruleId r.actions addr h i hi
    simp only [runRulesHeap]
    split
    · cases hp : (runActionsHeap r.ruleId r.actions addr h).1 with
      | error e => simpa using ha
      | ok lines =>
        by_cases hfm : (mode == "first_match") = true
        · simp only [hfm, if_true]
          simpa using ha
        · simp only [Bool.not_eq_true] at hfm
          simp only [hfm, Bool.false_eq_true, if_false]
          have hq := ih (runActionsHeap r.ruleId r.actions addr h).2 i hi
          simpa using hq.trans ha
    · simpa using ih h i hi

/-- `Except.ok`-ness as a boolean (no abort). -/
def exceptOk {ε α : Type} : Except ε α → Bool
  | .ok _ => true
  | .error _ => false

/-- The float coercions `_execute_action` performs for one action on the
current context all succeed (the only way any action can raise). -/
def arithOperandsOk (a : RuleAction) (ctx : Ctx) : Bool :=
  match a with
  | .multiply f x? =>
    (pyFloat ((assocGet ctx f).getD (.int 0))).isSome &&
      (pyFloat (x?.getD (.int 1))).isSome
  | .add f x? =>
    (pyFloat ((assocGet ctx f).getD (.int 0))).isSome &&
      (pyFloat (x?.getD (.int 0))).isSome
  | .subtract f x? =>
    (pyFloat ((assocGet ctx f).getD (.int 0))).isSome &&
      (pyFloat (x?.getD (.int 0))).isSome
  | .divide f x? =>
    match pyFloat (x?.getD (.int 1)) with
    | Option.none => false
    | some d =>
      if d ≠ 0 then (pyFloat ((assocGet ctx f).getD (.int 0))).isSome
      else true
  | _ => true

/-- Stepwise operand coercibility along an action list (each action judged
against the context as mutated by its predecessors). -/
def actionsOk (ruleId : String) : List RuleAction → Ctx → Bool
  | [], _ => true
  | a :: rest, ctx =>
    arithOperandsOk a ctx &&
      (match execAction ruleId a ctx with
       | .ok p => actionsOk ruleId rest p.2
       | .error _ => false)

theorem execAction_ok_of_operandsOk (ruleId : String) (a : RuleAction)
    (ctx : Ctx) (hok : arithOperandsOk a ctx = true) :
    exceptOk (execAction ruleId a ctx) = true := by
  cases a with
  | set f v? => simp [execAction, exceptOk]
  | multiply f x? =>
    simp only [arithOperandsOk, Bool.and_eq_true, Option.isSome_iff_exists] at hok
    obtain ⟨⟨x, hx⟩, y, hy⟩ := hok
    simp [execAction, hx, hy, exceptOk]
  | add f x? =>
    simp only [arithOperandsOk, Bool.and_eq_true, Option.isSome_iff_exists] at hok
    obtain ⟨⟨x, hx⟩, y, hy⟩ := hok
    simp [execAction, hx, hy, exceptOk]
  | subtract f x? =>
    simp only [arithOperandsOk, Bool.and_eq_true, Option.isSome_iff_exists] at hok
    obtain ⟨⟨x, hx⟩, y, hy⟩ := hok
    simp [execAction, hx, hy, exceptOk]
  | divide f x? =>
    simp only [arithOperandsOk] at hok
    cases hd : pyFloat (x?.getD (.int 1)) with
    | none => rw [hd] at hok; simp at hok
    | some d =>
      rw [hd] at hok
      by_cases hz : d = 0
      · subst hz
        simp at hok
        simp [execAction, hd, exceptOk]
      · simp only [if_pos (by exact hz : d ≠ 0), Option.isSome_iff_exists] at hok
        obtain ⟨x, hx⟩ := hok
        simp [execAction, hd, hx, hz, exceptOk]
  | append f v? => simp [execAction, exceptOk]
  | log msg => simp [execAction, exceptOk]
  | unrecognized => simp [execAction, exceptOk]

theorem execActions_ok_of_actionsOk (ruleId : String) (acts : List RuleAction) :
    ∀ (ctx : Ctx), actionsOk ruleId acts ctx = true →
      exceptOk (execActions ruleId acts ctx) = true := by
  induction acts with
  | nil =>
    intro ctx _
    simp [execActions, exceptOk]
  | cons a rest ih =>
    intro ctx hok
    rw [actionsOk] at hok
    rcases Bool.and_eq_true_iff.mp hok with ⟨ha, hrest⟩
    cases hEA : execAction ruleId a ctx with
    | error e =>
      have := execAction_ok_of_operandsOk ruleId a ctx ha
      rw [hEA] at this
      simp [exceptOk] at this
    | ok p =>
      rw [hEA] at hrest
      simp only at hrest
      have hrec := ih p.2 hrest
      rw [execActions, hEA]
      obtain ⟨line?, ctx'⟩ := p
      simp only at hrec
      cases hR : execActions ruleId rest ctx' with
      | error e => rw [hR] at hrec; simp [exceptOk] at hrec
      | ok q =>
        obtain ⟨lines, ctx''⟩ := q
        simp [hR, exceptOk]

theorem rulePrio_trans (a b c : Rule) :
    decide (a.priority ≤ b.priority) = true →
    decide (b.priority ≤ c.priority) = true →
    decide (a.priority ≤ c.priority) = true := by
  simp only [decide_eq_true_eq]
  omega

theorem rulePrio_total (a b : Rule) :
    (decide (a.priority ≤ b.priority) || decide (b.priority ≤ a.priority)) = true := by
  simp only [Bool.or_eq_true, decide_eq_true_eq]
  omega

/-! ## Claims -/

/-- Helper for C1: the empty condition falls through every literal form
and every operator search down to a *context lookup of the empty-string
key*, whose truthiness is returned. -/
theorem evaluate_empty_condition (ctx : Ctx) :
    SafeEvaluator.evaluate ctx "" =
      pyTruthy (walkPath (.dict ctx) [""]) := by
  show evalChars ctx [] = _
  simp [evalChars, parseOr, parseAnd, parseNot, parseComparison,
    splitOnKeyword, splitGo, stripChars, tryCmpOps, opsList, findSub,
    resolveChars, pyIntParse, digitsToNat?, pyFloatParse, floatMantissa?,
    splitOnChar, isPySpace]

/-- C1 fixture: a typical context with no empty-string key. -/
def c1ctx : Ctx := [("age", Value.int 67)]

/-- C1 fixture: a rule whose condition is the empty string. -/
def c1rule : Rule := { id? := some "e1", condition? := some "" }

unseal vbeq pyEq pyLt splitGo replaceChars pyRepr evalChars parseOr parseAnd parseNot parseComparison in
/-- C1 (counterexample): the claim "the empty condition evaluates to true
against any context" is false: against `{age: 67}` it evaluates to false,
and the rule with the empty condition lands in `rules_skipped` with its
actions not executed. -/
theorem c1_empty_condition_counterexample :
    SafeEvaluator.evaluate c1ctx "" = false ∧
    runRules "all" [c1rule] c1ctx =
      .ok ⟨[], ["e1"], [skipEntry c1rule], c1ctx⟩ := by
  exact ⟨by decide, by decide⟩

/-- C1 (amended): a rule whose condition string is empty does NOT always
match: the empty condition resolves as a dotted-path lookup of the
empty-string key, so against any context without an empty-string key it
evaluates to false (the truthiness of `None`) and the rule is recorded as
skipped, its actions never executed. -/
theorem c1_empty_condition_amended :
    (∀ ctx : Ctx, assocGet ctx "" = Option.none →
       SafeEvaluator.evaluate ctx "" = false) ∧
    (∀ (mode : String) (r : Rule) (rest : List Rule) (ctx : Ctx)
       (out : LoopOut),
       r.condition? = some "" → assocGet ctx "" = Option.none →
       runRules mode rest ctx = .ok out →
       runRules mode (r :: rest) ctx =
         .ok ⟨out.fired, r.ruleId :: out.skipped, skipEntry r :: out.trace,
           out.ctx⟩) := by
  have key : ∀ ctx : Ctx, assocGet ctx "" = Option.none →
      SafeEvaluator.evaluate ctx "" = false := by
    intro ctx h
    rw [evaluate_empty_condition]
    simp [walkPath, h, pyTruthy]
  refine ⟨key, ?_⟩
  intro mode r rest ctx out hc h hrec
  have hcond : r.condition = "" := by simp [Rule.condition, hc]
  rw [runRules, hcond, if_neg (by simp [key ctx h]), hrec]

unseal vbeq pyEq pyLt splitGo replaceChars pyRepr evalChars parseOr parseAnd parseNot parseComparison in
/-- C1 witness for the amended theorem at a concrete input. -/
theorem c1_empty_condition_amended_witness :
    runRules "all" [c1rule] c1ctx =
      .ok ⟨[], ["e1"], [skipEntry c1rule], c1ctx⟩ :=
  c1_empty_condition_amended.2 "all" c1rule [] c1ctx ⟨[], [], [], c1ctx⟩
    rfl (by decide) rfl

/-- C2 fixture: a rule comparing a string-valued field to a number. -/
def c2rule : Rule := { id? := some "r1", condition? := some "name > 5" }

/-- C2 fixture context. -/
def c2ctx : Ctx := [("name", Value.str "bob")]

unseal vbeq pyEq pyLt splitGo replaceChars pyRepr evalChars parseOr parseAnd parseNot parseComparison in
/-- C2 (counterexample): a comparison between a string and a number does
not fail with any ConditionError: the `TypeError` is caught inside
`_parse_comparison` and becomes `False`, so the rule is recorded as an
ordinary non-match with NO error annotation; moreover `!=` between
incompatible types yields true, not false. -/
theorem c2_type_mismatch_counterexample :
    runRules "all" [c2rule] c2ctx =
      .ok ⟨[], ["r1"], [skipEntry c2rule], c2ctx⟩ ∧
    (skipEntry c2rule).error? = Option.none ∧
    applyCmp .ne (.str "bob") (.int 5) = true := by
  exact ⟨by decide, by decide, by decide⟩

/-- C2 (amended): a comparison between a string operand and a numeric
operand never raises: the four ordering operators and `==` resolve to
false and `!=` resolves to true (in either operand order for the
ordering operators), and every log entry the loop can produce carries no
error annotation — the condition-error branch of the loop is unreachable
because the evaluator catches all its exceptions internally. -/
theorem c2_type_mismatch_amended :
    (∀ (s : String) (v : Value), (pyNum? v).isSome = true →
       applyCmp .gt (.str s) v = false ∧ applyCmp .lt (.str s) v = false ∧
       applyCmp .ge (.str s) v = false ∧ applyCmp .le (.str s) v = false ∧
       applyCmp .eq (.str s) v = false ∧ applyCmp .ne (.str s) v = true ∧
       applyCmp .gt v (.str s) = false ∧ applyCmp .lt v (.str s) = false ∧
       applyCmp .ge v (.str s) = false ∧ applyCmp .le v (.str s) = false) ∧
    (∀ r : Rule, (skipEntry r).error? = Option.none ∧
       ∀ lines, (matchEntry r lines).error? = Option.none) := by
  constructor
  · intro s v hv
    cases v <;> simp_all [applyCmp, pyLt, pyEq, pyNum?]
  · intro r
    exact ⟨rfl, fun lines => rfl⟩

/-- C2 witness for the amended theorem at a concrete input. -/
theorem c2_type_mismatch_amended_witness :
    applyCmp .gt (.str "bob") (.int 5) = false :=
  (c2_type_mismatch_amended.1 "bob" (.int 5) (by decide)).1

unseal vbeq pyEq pyLt splitGo replaceChars pyRepr evalChars parseOr parseAnd parseNot parseComparison in
/-- C3 (counterexample): the LOG action's log line is not the bare
rendered message: it is prefixed with `[rule_id] LOG: `, so the example
message renders as `[R1] LOG: Premium is 360.0`, not exactly
`Premium is 360.0`. -/
theorem c3_log_line_counterexample :
    execAction "R1" (.log (.str "Premium is \x7bbase_premium\x7d"))
        [("base_premium", .float 360)] =
      .ok (some "[R1] LOG: Premium is 360.0",
        [("base_premium", .float 360)]) ∧
    ("[R1] LOG: Premium is 360.0" : String) ≠ "Premium is 360.0" := by
  exact ⟨by decide, by decide⟩

unseal vbeq pyEq pyLt splitGo replaceChars pyRepr evalChars parseOr parseAnd parseNot parseComparison in
/-- C3 (amended): for every LOG action with message m and context c, the
action's log line is `"[" ++ rule_id ++ "] LOG: "` followed by m with
every `{key}` placeholder replaced, in one sequential pass over the
context entries in order (not recursively), by the string form of the
entry's value; the context is unchanged; and on the example input the
line is `[R1] LOG: Premium is 360.0`. -/
theorem c3_log_action_amended :
    (∀ (ruleId : String) (msg : Value) (ctx : Ctx),
       execAction ruleId (.log msg) ctx =
         .ok (some ("[" ++ ruleId ++ "] LOG: " ++
           ctx.foldl (fun m kv =>
             pyReplace m ("\x7b" ++ kv.1 ++ "\x7d") (pyStr kv.2))
             (pyStr msg)), ctx)) ∧
    execAction "R1" (.log (.str "Premium is \x7bbase_premium\x7d"))
        [("base_premium", .float 360)] =
      .ok (some "[R1] LOG: Premium is 360.0",
        [("base_premium", .float 360)]) := by
  exact ⟨fun ruleId msg ctx => rfl, by decide⟩

theorem assocGet_assocSet {α : Type} (m : List (String × α)) (k : String)
    (v : α) : assocGet (assocSet m k v) k = some v := by
  induction m with
  | nil => simp [assocSet, assocGet]
  | cons kv rest ih =>
    rw [assocSet]
    by_cases h : kv.1 == k
    · simp [h, assocGet]
    · simp only [h, if_false, Bool.false_eq_true]
      rw [assocGet, List.find?]
      simp only [h]
      exact ih

theorem assocGet_assocErase {α : Type} (m : List (String × α)) (k : String) :
    assocGet (assocErase m k) k = Option.none := by
  induction m with
  | nil => simp [assocErase, assocGet]
  | cons kv rest ih =>
    rw [assocErase, List.filter]
    by_cases h : kv.1 = k
    · simp only [h, bne_self_eq_false]
      exact ih
    · have hb : (kv.1 != k) = true := by simp [h]
      rw [hb]
      rw [assocGet, List.find?]
      have : (kv.1 == k) = false := by simp [h]
      simp only [this]
      exact ih

/-- C4 fixture: a MULTIPLY whose target field holds a non-numeric
string. -/
def c4acts : List RuleAction := [.multiply "x" (some (.int 2))]

/-- C4 fixture context. -/
def c4ctx : Ctx := [("x", Value.str "abc")]

unseal vbeq pyEq pyLt splitGo replaceChars pyRepr evalChars parseOr parseAnd parseNot parseComparison in
/-- C4 (counterexample): an action CAN abort the sequence: MULTIPLY on a
field holding a non-numeric string fails its float coercion and the
resulting error propagates out of the executor (the loop's `try` only
wraps condition evaluation). -/
theorem c4_action_abort_counterexample :
    execActions "r1" c4acts c4ctx =
      .error "could not convert operand to float in MULTIPLY" := by decide

/-- C4 (amended): executing an action list never aborts *provided* every
arithmetic action's float coercions succeed on the context it runs
against (the only failure source); and an action whose target field is
absent from the context treats the field as 0 for
MULTIPLY/ADD/SUBTRACT/DIVIDE while APPEND creates a fresh one-element
list. -/
theorem c4_actions_amended :
    (∀ (ruleId : String) (acts : List RuleAction) (ctx : Ctx),
       actionsOk ruleId acts ctx = true →
       exceptOk (execActions ruleId acts ctx) = true) ∧
    (∀ (ruleId f : String) (ctx : Ctx) (x : Value) (q : ℚ),
       assocGet ctx f = Option.none → pyFloat x = some q →
       execAction ruleId (.multiply f (some x)) ctx =
         .ok (some ("[" ++ ruleId ++ "] MULTIPLY " ++ f ++ " × " ++ pyStr x
             ++ " → " ++ pyStr (.float (round4 (0 * q)))),
           assocSet ctx f (.float (round4 (0 * q)))) ∧
       execAction ruleId (.add f (some x)) ctx =
         .ok (some ("[" ++ ruleId ++ "] ADD " ++ f ++ " + " ++ pyStr x
             ++ " → " ++ pyStr (.float (round4 (0 + q)))),
           assocSet ctx f (.float (round4 (0 + q)))) ∧
       execAction ruleId (.subtract f (some x)) ctx =
         .ok (some ("[" ++ ruleId ++ "] SUBTRACT " ++ f ++ " - " ++ pyStr x
             ++ " → " ++ pyStr (.float (round4 (0 - q)))),
           assocSet ctx f (.float (round4 (0 - q)))) ∧
       (q ≠ 0 →
         execAction ruleId (.divide f (some x)) ctx =
           .ok (some ("[" ++ ruleId ++ "] DIVIDE " ++ f ++ " / " ++ pyStr x
               ++ " → " ++ pyStr (.float (round4 (0 / q)))),
             assocSet ctx f (.float (round4 (0 / q)))))) ∧
    (∀ (ruleId f : String) (ctx : Ctx) (v : Value),
       assocGet ctx f = Option.none →
       execAction ruleId (.append f (some v)) ctx =
         .ok (some ("[" ++ ruleId ++ "] APPEND " ++ pyRepr v ++ " → " ++ f),
           assocSet ctx f (.list [v]))) := by
  refine ⟨execActions_ok_of_actionsOk, ?_, ?_⟩
  · intro ruleId f ctx x q h hx
    have h0 : pyFloat ((assocGet ctx f).getD (.int 0)) = some 0 := by
      rw [h]; simp [pyFloat]
    refine ⟨?_, ?_, ?_, ?_⟩
    · simp [execAction, h0, hx]
    · simp [execAction, h0, hx]
    · simp [execAction, h0, hx]
    · intro hq
      simp [execAction, h0, hx, hq, assocGet_assocSet]
  · intro ruleId f ctx v h
    simp [execAction, h]

unseal vbeq pyEq pyLt splitGo replaceChars pyRepr evalChars parseOr parseAnd parseNot parseComparison in
/-- C4 witness for the amended theorem at a concrete input. -/
theorem c4_actions_amended_witness :
    exceptOk (execActions "r1" [.set "x" (some (.int 1)),
      .multiply "x" (some (.int 2))] []) = true :=
  c4_actions_amended.1 "r1" [.set "x" (some (.int 1)),
    .multiply "x" (some (.int 2))] [] (by decide)

/-- Helper for C5: with no earlier match, the single matching rule is the
only fired rule of a `first_match` pass. -/
theorem runRules_first_match_fired (pre : List Rule) (r : Rule) (ctx : Ctx)
    (hpre : ∀ p ∈ pre, SafeEvaluator.evaluate ctx p.condition = false)
    (hr : SafeEvaluator.evaluate ctx r.condition = true) :
    ∀ out, runRules "first_match" (pre ++ [r]) ctx = .ok out →
      out.fired = [r.ruleId] := by
  induction pre with
  | nil =>
    intro out h
    simp only [List.nil_append] at h
    rw [runRules, if_pos hr] at h
    cases hEA : execActions r.ruleId r.actions ctx with
    | error e => rw [hEA] at h; exact absurd h (by simp)
    | ok p =>
      rw [hEA] at h
      simp only [beq_self_eq_true, if_true] at h
      injection h with h
      subst h
      rfl
  | cons p pre' ih =>
    intro out h
    have hp : SafeEvaluator.evaluate ctx p.condition = false :=
      hpre p (List.mem_cons_self p pre')
    simp only [List.cons_append] at h
    rw [runRules, if_neg (by simp [hp])] at h
    cases hrec : runRules "first_match" (pre' ++ [r]) ctx with
    | error e => rw [hrec] at h; exact absurd h (by simp)
    | ok out' =>
      rw [hrec] at h
      simp only at h
      injection h with h
      subst h
      exact ih (fun q hq => hpre q (List.mem_cons_of_mem p hq)) out' hrec

/-- C5: under `first_match`, once a rule's condition matches (after only
non-matching rules), the pass result does not depend on the rules after
it — they are never evaluated or executed — and the matching rule is the
only fired rule. -/
theorem c5_first_match_short_circuit
    (pre : List Rule) (r : Rule) (post post' : List Rule) (ctx : Ctx)
    (hpre : ∀ p ∈ pre, SafeEvaluator.evaluate ctx p.condition = false)
    (hr : SafeEvaluator.evaluate ctx r.condition = true) :
    runRules "first_match" (pre ++ r :: post) ctx =
      runRules "first_match" (pre ++ r :: post') ctx ∧
    (∀ out, runRules "first_match" (pre ++ r :: post) ctx = .ok out →
       out.fired = [r.ruleId]) := by
  constructor
  · rw [runRules_first_match_stops pre r post ctx hpre hr,
        runRules_first_match_stops pre r post' ctx hpre hr]
  · intro out hout
    rw [runRules_first_match_stops pre r post ctx hpre hr] at hout
    exact runRules_first_match_fired pre r ctx hpre hr out hout

/-- C5 fixture: a non-matching rule. -/
def c5skip : Rule := { id? := some "a", condition? := some "false" }

/-- C5 fixture: a matching rule. -/
def c5hit : Rule := { id? := some "b", condition? := some "true" }

/-- C5 fixture: a later rule that would also match. -/
def c5later : Rule := { id? := some "c", condition? := some "true" }

unseal vbeq pyEq pyLt splitGo replaceChars pyRepr evalChars parseOr parseAnd parseNot parseComparison in
/-- C5 witness at a concrete input: dropping the would-also-match rule
after the first match leaves the pass result unchanged. -/
theorem c5_first_match_short_circuit_witness :
    runRules "first_match" ([c5skip] ++ c5hit :: [c5later]) [] =
      runRules "first_match" ([c5skip] ++ c5hit :: []) [] :=
  (c5_first_match_short_circuit [c5skip] c5hit [c5later] [] []
    (by decide) (by decide)).1

/-- C6: the rule loop visits rules in ascending numeric priority order
(missing priority defaults to 50) using a stable sort: the loaded
document's rules are `sortRules` of the document order, which is sorted,
a permutation, keeps any priority-respecting pair in document order, and
the execution log visits exactly that order (outside `first_match`). -/
theorem c6_priority_order (d : RawDoc) (meta : RulesetMeta) (rs : List Rule)
    (h1 : d.ruleset? = some meta) (h2 : d.rules? = some rs) :
    loadDoc d = .ok ⟨meta, sortRules rs⟩ ∧
    (sortRules rs).Pairwise (fun a b => a.priority ≤ b.priority) ∧
    (sortRules rs).Perm rs ∧
    (∀ a b : Rule, a.priority ≤ b.priority → [a, b].Sublist rs →
       [a, b].Sublist (sortRules rs)) ∧
    (∀ (input : Ctx) (out : EvalResult), evaluateDoc d input = .ok out →
       meta.priorityMode ≠ "first_match" →
       out.execution_log.map (fun t => t.rule_id) =
         (sortRules rs).map Rule.ruleId) := by
  refine ⟨by simp [loadDoc, h1, h2], ?_, List.mergeSort_perm rs _, ?_, ?_⟩
  · have hs := List.sorted_mergeSort rulePrio_trans rulePrio_total rs
    exact hs.imp (fun h => by simpa using h)
  · intro a b hab hsub
    exact List.pair_sublist_mergeSort rulePrio_trans rulePrio_total
      (by simpa using hab) hsub
  · intro input out hout hne
    rw [evaluateDoc, loadDoc, h1, h2] at hout
    simp only at hout
    rw [engineEvaluate] at hout
    simp only at hout
    split at hout
    · exact absurd hout (by simp)
    · rename_i lo hrec
      injection hout with hout
      subst hout
      exact ((runRules_spec meta.priorityMode (sortRules rs) _ lo hrec).2.2.1) hne

/-- C6 fixture rules with priorities 30, 10, 50 in document order. -/
def c6rules : List Rule :=
  [{ id? := some "A", priority? := some 30 },
   { id? := some "B", priority? := some 10 },
   { id? := some "C", priority? := some 50 }]

/-- C6 fixture document. -/
def c6doc : RawDoc := { ruleset? := some {}, rules? := some c6rules }

unseal vbeq List.mergeSort List.merge in
/-- C6 witness: loading sorts priorities [30, 10, 50] into evaluation
order [10, 30, 50] regardless of document order. -/
theorem c6_priority_order_witness :
    loadDoc c6doc = .ok ⟨{}, sortRules c6rules⟩ ∧
    (sortRules c6rules).map Rule.ruleId = ["B", "A", "C"] :=
  ⟨(c6_priority_order c6doc {} c6rules rfl rfl).1, by decide⟩

/-- C7: `evaluate` never mutates the caller-supplied input record.  In
the aliasing model: the working context is a freshly allocated deep copy,
every mutation of the pass writes to the fresh cell only, so the caller's
cell compares (structurally) equal before and after the call — whether
the call succeeds or raises. -/
theorem c7_input_never_mutated (doc : LoadedDoc) (h : Heap)
    (inputAddr : Nat) (hlt : inputAddr < h.length) :
    ((evaluateHeap doc inputAddr h).2)[inputAddr]? = h[inputAddr]? ∧
    ((evaluateHeap doc inputAddr h).2).getD inputAddr [] =
      h.getD inputAddr [] := by
  have hne : inputAddr ≠ h.length := Nat.ne_of_lt hlt
  have hpair : (evaluateHeap doc inputAddr h).2 =
      (runRulesHeap doc.meta.priorityMode doc.rules h.length
        (h ++ [assocSetdefault (h.getD inputAddr []) "tags" (.list [])])).2 :=
    rfl
  have hframe := runRulesHeap_frame doc.meta.priorityMode doc.rules h.length
    (h ++ [assocSetdefault (h.getD inputAddr []) "tags" (.list [])])
    inputAddr hne
  have happ : (h ++ [assocSetdefault (h.getD inputAddr []) "tags"
      (.list [])])[inputAddr]? = h[inputAddr]? :=
    List.getElem?_append_left hlt
  have key : ((evaluateHeap doc inputAddr h).2)[inputAddr]? =
      h[inputAddr]? := by
    rw [hpair]
    exact hframe.trans happ
  exact ⟨key, by simp [List.getD_eq_getElem?_getD, key]⟩

/-- C7 fixture document: one matching discount rule. -/
def c7rule : Rule :=
  { id? := some "senior", condition? := some "age > 60",
    actions? := some [.multiply "base_premium" (some (.float (9 / 10)))] }

/-- C7 fixture document wrapper. -/
def c7doc : LoadedDoc := { meta := {}, rules := [c7rule] }

/-- C7 fixture heap: the caller's record at address 0. -/
def c7heap : Heap := [[("age", Value.int 67), ("base_premium", Value.float 400)]]

/-- C7 witness at a concrete input. -/
theorem c7_input_never_mutated_witness :
    ((evaluateHeap c7doc 0 c7heap).2)[0]? = c7heap[0]? ∧
    ((evaluateHeap c7doc 0 c7heap).2).getD 0 [] = c7heap.getD 0 [] :=
  c7_input_never_mutated c7doc c7heap 0 (by decide)

/-- C8: a DIVIDE whose divisor coerces to zero leaves the target field
unchanged and raises no error (the log line still reports the current
value); a non-zero divisor stores the quotient rounded to 4 decimal
places. -/
theorem c8_divide_by_zero (ruleId f : String) (ctx : Ctx) (dv : Value)
    (d : ℚ) (hd : pyFloat dv = some d) :
    (d = 0 →
       execAction ruleId (.divide f (some dv)) ctx =
         .ok (some ("[" ++ ruleId ++ "] DIVIDE " ++ f ++ " / " ++ pyStr dv
             ++ " → " ++ pyStr ((assocGet ctx f).getD .none)), ctx)) ∧
    (∀ x, d ≠ 0 → pyFloat ((assocGet ctx f).getD (.int 0)) = some x →
       execAction ruleId (.divide f (some dv)) ctx =
         .ok (some ("[" ++ ruleId ++ "] DIVIDE " ++ f ++ " / " ++ pyStr dv
             ++ " → " ++ pyStr (.float (round4 (x / d)))),
           assocSet ctx f (.float (round4 (x / d))))) := by
  constructor
  · intro h0
    subst h0
    simp [execAction, hd]
  · intro x hdz hx
    simp [execAction, hd, hdz, hx, assocGet_assocSet]

unseal vbeq pyEq pyLt splitGo replaceChars pyRepr evalChars parseOr parseAnd parseNot parseComparison in
/-- C8 witness at a concrete input: divide-by-zero is a silent no-op. -/
theorem c8_divide_by_zero_witness :
    execAction "r" (.divide "x" (some (.int 0))) [("x", Value.int 5)] =
      .ok (some ("[r] DIVIDE x / 0 → " ++
        pyStr ((assocGet [("x", Value.int 5)] "x").getD .none)),
        [("x", Value.int 5)]) :=
  (c8_divide_by_zero "r" "x" [("x", Value.int 5)] (.int 0) 0 (by decide)).1
    rfl

/-- C9: `save_ruleset_yaml` (writeRaw/putRawDocument) validates the two
required top-level keys before committing: on a missing `ruleset` or
`rules` key it fails with the corresponding `ValueError` and the state is
returned untouched — the backing medium keeps its prior content and the
cache entry (the previously cached parsed document) is still retrievable
unchanged; on valid content it overwrites the medium, evicts the cache
entry for that id, and reports the rule count. -/
theorem c9_save_validation (st : EngineState) (name : String)
    (content : RawDoc) :
    (content.ruleset? = Option.none →
       saveRulesetYaml st name content =
         (.error "YAML must contain a 'ruleset' key", st)) ∧
    (∀ meta, content.ruleset? = some meta → content.rules? = Option.none →
       saveRulesetYaml st name content =
         (.error "YAML must contain a 'rules' key", st)) ∧
    (∀ meta rs, content.ruleset? = some meta → content.rules? = some rs →
       (saveRulesetYaml st name content).1 = .ok rs.length ∧
       assocGet (saveRulesetYaml st name content).2.files name =
         some content ∧
       assocGet (saveRulesetYaml st name content).2.cache name =
         Option.none) := by
  refine ⟨?_, ?_, ?_⟩
  · intro h
    simp [saveRulesetYaml, h]
  · intro meta h1 h2
    simp [saveRulesetYaml, h1, h2]
  · intro meta rs h1 h2
    refine ⟨?_, ?_, ?_⟩
    · simp [saveRulesetYaml, h1, h2]
    · simp [saveRulesetYaml, h1, h2, assocGet_assocSet]
    · simp [saveRulesetYaml, h1, h2, assocGet_assocErase]

/-- C9 fixture: a previously cached document. -/
def c9cached : LoadedDoc := { meta := {}, rules := [] }

/-- C9 fixture: a store state with one file and its cached parse. -/
def c9state : EngineState :=
  { files := [("insurance", { ruleset? := some {}, rules? := some [] })],
    cache := [("insurance", c9cached)] }

/-- C9 fixture: replacement text missing the rule-sequence key. -/
def c9bad : RawDoc := { ruleset? := some {}, rules? := Option.none }

/-- C9 witness: writing text that lacks the `rules` key fails and leaves
state (medium and cache, hence the cached document) untouched. -/
theorem c9_save_validation_witness :
    saveRulesetYaml c9state "insurance" c9bad =
      (.error "YAML must contain a 'rules' key", c9state) :=
  (c9_save_validation c9state "insurance" c9bad).2.1 {} rfl rfl

/-- C10: for every completed evaluation, `rules_fired_count` equals the
length of `rules_fired`; the execution log has exactly one entry per
visited rule (its length is fired + skipped); fired + skipped never
exceeds `rules_total`; and under `first_match` at most one rule fires, so
rules after the first match appear nowhere. -/
theorem c10_result_invariants (doc : LoadedDoc) (input : Ctx)
    (out : EvalResult) (h : engineEvaluate doc input = .ok out) :
    out.rules_fired_count = out.rules_fired.length ∧
    out.execution_log.length =
      out.rules_fired.length + out.rules_skipped.length ∧
    out.rules_fired.length + out.rules_skipped.length ≤ out.rules_total ∧
    (out.priority_mode = "first_match" → out.rules_fired.length ≤ 1) := by
  rw [engineEvaluate] at h
  split at h
  · exact absurd h (by simp)
  · rename_i lo hrec
    injection h with h
    subst h
    obtain ⟨h1, h2, _, h4⟩ :=
      runRules_spec doc.meta.priorityMode doc.rules
        (assocSetdefault input "tags" (.list [])) lo hrec
    exact ⟨rfl, h1, h2, h4⟩

/-- C10 fixture document: one matching and one non-matching rule. -/
def c10doc : LoadedDoc :=
  { meta := {},
    rules := [{ id? := some "hit", condition? := some "true" },
              { id? := some "miss", condition? := some "false" }] }

/-- C10 fixture result of evaluating the fixture document. -/
def c10out : EvalResult :=
  { context := [("tags", Value.list [])],
    rules_fired := ["hit"],
    rules_skipped := ["miss"],
    rules_fired_count := 1,
    rules_total := 2,
    execution_log :=
      [matchEntry { id? := some "hit", condition? := some "true" } [],
       skipEntry { id? := some "miss", condition? := some "false" }],
    priority_mode := "all" }

unseal vbeq pyEq pyLt splitGo replaceChars pyRepr evalChars parseOr parseAnd parseNot parseComparison in
/-- C10 witness at a concrete input. -/
theorem c10_result_invariants_witness :
    c10out.rules_fired_count = c10out.rules_fired.length ∧
    c10out.execution_log.length =
      c10out.rules_fired.length + c10out.rules_skipped.length ∧
    c10out.rules_fired.length + c10out.rules_skipped.length ≤
      c10out.rules_total ∧
    (c10out.priority_mode = "first_match" →
      c10out.rules_fired.length ≤ 1) :=
  c10_result_invariants c10doc [] c10out (by decide)
